import Mathlib

/-!
Tekton pipeline export of kpt: a verification development.

A shallow embedding of
`vendor/github.com/GoogleContainerTools/kpt/internal/cmdexport/orchestrators/tekton.go`.

* Go `string` values are Lean `String`s. The path functions only ever inspect the
  ASCII bytes `/` and `.`, so working on characters instead of bytes changes nothing.
* Pointer fields (`*T`) are `Option T`; slices are `List`s (a nil slice and an empty slice
  are both `[]`, which is all `omitempty` and `len` can observe). The elements of the
  `[]*T` slices built here are never nil and are stored as plain values.
* A method with a pointer receiver that assigns fields is a function from the receiver's
  old state to its new state.
* `path.Clean` and `path.Join` (Go standard library) are embedded from the library's
  algorithm.
* `yaml.Marshal` is an external library. The part of it that is fixed by the struct tags
  in `tekton.go` (field keys, `omitempty`, unexported fields) is embedded as `toYaml`
  functions producing a document tree; the text encoder is a parameter.
-/

namespace Kpt

/-! ## Go standard library: `path.Clean` and `path.Join` -/

/-- The `..` case of `path.Clean` when it can backtrack, on the reversed output buffer:
`out.w--; for out.w > dotdot && out.index(out.w) != '/' { out.w-- }`.
The head of the list is the byte at `out.w - 1`; `out.index(out.w)` is the byte that was
dropped last. -/
def backtrack : List Char → Nat → List Char
  | [], _ => []
  | c :: rest, dotdot =>
    if rest.length > dotdot ∧ c ≠ '/' then backtrack rest dotdot else rest

/-- The state of the loop of `path.Clean`: the unread input `path[r:]`, the output
buffer in reverse (so `out.w` is its length) and the index `dotdot`. -/
structure CleanState where
  rest : List Char
  out : List Char
  dotdot : Nat
  deriving DecidableEq, Repr

/-- The statement `if out.w > 0 { out.append('/') }` of the `..` case. -/
def appendSlashIfNonEmpty (out : List Char) : List Char :=
  if out.length > 0 then '/' :: out else out

/-- The statement `if rooted && out.w != 1 || !rooted && out.w != 0 { out.append('/') }`
of the default case. -/
def appendSlashIfNeeded (rooted : Bool) (out : List Char) : List Char :=
  if (rooted = true ∧ out.length ≠ 1) ∨ (rooted = false ∧ out.length ≠ 0) then '/' :: out
  else out

/-- One iteration of `for r < n { switch { ... } }` in `path.Clean`, with `path[r] = c`
the next byte and `rest = path[r+1:]`. -/
def cleanStep (rooted : Bool) (c : Char) (rest out : List Char) (dotdot : Nat) : CleanState :=
  if c = '/' then
    -- empty path element
    { rest := rest, out := out, dotdot := dotdot }
  else if c = '.' ∧ (rest = [] ∨ rest.head? = some '/') then
    -- . element
    { rest := rest, out := out, dotdot := dotdot }
  else if c = '.' ∧ rest.head? = some '.' ∧ (rest.tail = [] ∨ rest.tail.head? = some '/') then
    -- .. element: remove to last /
    if out.length > dotdot then
      -- can backtrack
      { rest := rest.tail, out := backtrack out dotdot, dotdot := dotdot }
    else if rooted = false then
      -- cannot backtrack, but not rooted, so append .. element
      { rest := rest.tail, out := '.' :: '.' :: appendSlashIfNonEmpty out,
        dotdot := (appendSlashIfNonEmpty out).length + 2 }
    else
      { rest := rest.tail, out := out, dotdot := dotdot }
  else
    -- real path element: add slash if needed, then copy the element
    { rest := (c :: rest).dropWhile (· ≠ '/'),
      out := ((c :: rest).takeWhile (· ≠ '/')).reverse ++ appendSlashIfNeeded rooted out,
      dotdot := dotdot }

/-- The loop `for r < n` of `path.Clean`, run for at most `fuel` iterations; the result
is the reversed output buffer. -/
def cleanLoop (rooted : Bool) : Nat → List Char → List Char → Nat → List Char
  | 0, _, out, _ => out
  | _ + 1, [], out, _ => out
  | fuel + 1, c :: rest, out, dotdot =>
    let s := cleanStep rooted c rest out dotdot
    cleanLoop rooted fuel s.rest s.out s.dotdot

/-- Go `path.Clean`: the shortest path name equivalent to `path` by purely lexical
processing. The loop gets `len(path)` units of fuel, one per byte, which is never
exhausted since every iteration reads at least one byte. -/
def Clean (path : String) : String :=
  if path = "" then "."
  else
    let out :=
      if path.data.head? = some '/' then cleanLoop true path.length path.data.tail ['/'] 1
      else cleanLoop false path.length path.data [] 0
    if out.length = 0 then "." else String.mk out.reverse

/-- Go `strings.Join(elems, sep)`. -/
def stringsJoin (elems : List String) (sep : String) : String :=
  match elems with
  | [] => ""
  | e :: rest => rest.foldl (fun acc x => acc ++ sep ++ x) e

/-- Go `path.Join`: leading empty elements are skipped, the remaining ones are joined
with slashes and the result is cleaned; all elements empty gives the empty string. -/
def Join : List String → String
  | [] => ""
  | e :: rest => if e ≠ "" then Clean (stringsJoin (e :: rest) "/") else Join rest

/-! ## Data model (`tekton.go` and `types.PipelineConfig`) -/

/-- Modelled from the spec: the declaration of `types.PipelineConfig` is not among the
sources. Section 3 of the specification gives it the fields `Dir`, `FnPaths` and
`Image`; `tekton.go` reads `Dir` and `FnPaths`. -/
structure PipelineConfig where
  Dir : String
  FnPaths : List String
  Image : String
  deriving DecidableEq, Repr

structure TektonPipelineTaskRef where
  Name : String
  deriving DecidableEq, Repr

structure TektonMetadata where
  Name : String
  deriving DecidableEq, Repr

structure TektonWorkspace where
  Name : String
  MountPath : String
  Workspace : String
  deriving DecidableEq, Repr

structure TektonPipelineTask where
  Name : String
  TaskRef : Option TektonPipelineTaskRef
  RunAfter : List String
  Workspaces : List TektonWorkspace
  deriving DecidableEq, Repr

structure TektonPipelineSpec where
  Workspaces : List TektonWorkspace
  Tasks : List TektonPipelineTask
  deriving DecidableEq, Repr

structure TektonTaskConfig where
  PipelineConfig : PipelineConfig
  Name : String
  deriving DecidableEq, Repr

structure TektonVolumeMount where
  Name : String
  MountPath : String
  deriving DecidableEq, Repr

/-- The field `Type` of the source is written `Type_`, `Type` being reserved. -/
structure TektonVolumeHostPath where
  Path : String
  Type_ : String
  deriving DecidableEq, Repr

structure TektonVolume where
  Name : String
  HostPath : Option TektonVolumeHostPath
  deriving DecidableEq, Repr

structure TektonTaskStep where
  Name : String
  Image : String
  Args : List String
  VolumeMounts : List TektonVolumeMount
  deriving DecidableEq, Repr

structure TektonTaskSpec where
  Workspaces : List TektonWorkspace
  Steps : List TektonTaskStep
  Volumes : List TektonVolume
  deriving DecidableEq, Repr

structure TektonTask where
  APIVersion : String
  Kind : String
  Metadata : Option TektonMetadata
  Spec : Option TektonTaskSpec
  deriving DecidableEq, Repr

structure TektonPipeline where
  APIVersion : String
  Kind : String
  Metadata : Option TektonMetadata
  Spec : Option TektonPipelineSpec
  task : Option TektonTask
  deriving DecidableEq, Repr

/-- The zero value of `TektonTask`, as produced by `new(TektonTask)`. -/
def TektonTask.zero : TektonTask :=
  { APIVersion := "", Kind := "", Metadata := none, Spec := none }

/-- The zero value of `TektonPipeline`: a builder that was never initialised. -/
def TektonPipeline.zero : TektonPipeline :=
  { APIVersion := "", Kind := "", Metadata := none, Spec := none, task := none }

/-! ## Construction (`Init`) -/

/-- The local `workspaceRoot` of `TektonTask.Init`. -/
def workspaceRoot : String := "$(workspaces.source.path)"

/-- The arguments of the step, as built in `TektonTask.Init`: the three leading
arguments, then one `append` per entry of `FnPaths` inside the `len(...) > 0` guard. -/
def stepArgs (config : PipelineConfig) : List String :=
  let args := ["fn", "run", Join [workspaceRoot, config.Dir]]
  if config.FnPaths.length > 0 then
    config.FnPaths.foldl (fun args fnPath => args ++ ["--fn-path", Join [workspaceRoot, fnPath]])
      args
  else args

/-- `func (task *TektonTask) Init(config *TektonTaskConfig) *TektonTask`.
`KptImage` is a package-level constant whose declaration is not among the sources; it
is taken as a parameter. -/
def TektonTask.Init (KptImage : String) (task : TektonTask) (config : TektonTaskConfig) :
    TektonTask :=
  let volumeName := "docker-socket"
  let volumeMount : TektonVolumeMount :=
    { Name := volumeName, MountPath := "/var/run/docker.sock" }
  let args := stepArgs config.PipelineConfig
  let step : TektonTaskStep :=
    { Name := config.Name, Image := KptImage, Args := args, VolumeMounts := [volumeMount] }
  let volume : TektonVolume :=
    { Name := volumeName,
      HostPath := some { Path := "/var/run/docker.sock", Type_ := "Socket" } }
  let workspace : TektonWorkspace :=
    { Name := "source", MountPath := "/source", Workspace := "" }
  { task with
    APIVersion := "tekton.dev/v1beta1"
    Kind := "Task"
    Metadata := some { Name := config.Name }
    Spec := some { Workspaces := [workspace], Steps := [step], Volumes := [volume] } }

/-- `func (p *TektonPipeline) Init(config *types.PipelineConfig) Pipeline`. -/
def TektonPipeline.Init (KptImage : String) (p : TektonPipeline) (config : PipelineConfig) :
    TektonPipeline :=
  let taskName := "run-kpt-functions"
  let workspaceName := "shared-workspace"
  let pipelineWorkspace : TektonWorkspace :=
    { Name := workspaceName, MountPath := "", Workspace := "" }
  let taskConfig : TektonTaskConfig := { PipelineConfig := config, Name := taskName }
  let task := TektonTask.Init KptImage TektonTask.zero taskConfig
  let pipelineTaskWorkspace : TektonWorkspace :=
    { Name := "source", MountPath := "", Workspace := workspaceName }
  let pipelineTask : TektonPipelineTask :=
    { Name := "kpt", TaskRef := some { Name := taskName }, RunAfter := [],
      Workspaces := [pipelineTaskWorkspace] }
  { p with
    APIVersion := "tekton.dev/v1beta1"
    Kind := "Pipeline"
    Metadata := some { Name := taskName }
    task := some task
    Spec := some { Workspaces := [pipelineWorkspace], Tasks := [pipelineTask] } }

/-- The steps of the task retained by a pipeline builder (empty when there is none). -/
def TektonPipeline.steps (p : TektonPipeline) : List TektonTaskStep :=
  match p.task with
  | some t => match t.Spec with
    | some s => s.Steps
    | none => []
  | none => []

/-- The workspaces declared at pipeline level (empty when there is no spec). -/
def TektonPipeline.workspaces (p : TektonPipeline) : List TektonWorkspace :=
  match p.Spec with
  | some s => s.Workspaces
  | none => []

/-- The pipeline tasks of a pipeline (empty when there is no spec). -/
def TektonPipeline.tasks (p : TektonPipeline) : List TektonPipelineTask :=
  match p.Spec with
  | some s => s.Tasks
  | none => []

/-- The workspaces declared by the task retained by a pipeline builder. -/
def TektonPipeline.taskWorkspaces (p : TektonPipeline) : List TektonWorkspace :=
  match p.task with
  | some t => match t.Spec with
    | some s => s.Workspaces
    | none => []
  | none => []

/-- The volumes declared by the task retained by a pipeline builder. -/
def TektonPipeline.taskVolumes (p : TektonPipeline) : List TektonVolume :=
  match p.task with
  | some t => match t.Spec with
    | some s => s.Volumes
    | none => []
  | none => []

/-- The directory argument of every step of the task built by `Init`: the argument at
index 2, after `fn` and `run`. -/
def directoryArgs (KptImage : String) (p : TektonPipeline) (config : PipelineConfig) :
    List (Option String) :=
  (TektonPipeline.Init KptImage p config).steps.map (fun st => st.Args[2]?)

/-- The string of `k` slashes. -/
def slashes (k : Nat) : String := String.mk (List.replicate k '/')

/-! ## Serialization (`Generate`)

`yaml.Marshal` walks a value by reflection and hands a document tree to a text encoder.
The walk is fixed by the declarations of `tekton.go`: every exported field is a key
(the name given in the tag, else the field name in lower case), every field is tagged
`omitempty`, and the unexported field `task` of `TektonPipeline` is skipped. -/

/-- A YAML document tree. -/
inductive YamlNode where
  | null
  | scalar (value : String)
  | sequence (items : List YamlNode)
  | mapping (fields : List (String × YamlNode))
  deriving Repr

/-- A string field tagged `omitempty`: absent when the string is empty. -/
def omitEmptyString (key value : String) : List (String × YamlNode) :=
  if value = "" then [] else [(key, YamlNode.scalar value)]

/-- A pointer field tagged `omitempty`: absent when the pointer is nil. -/
def omitEmptyPtr {α : Type} (key : String) (encode : α → YamlNode) (value : Option α) :
    List (String × YamlNode) :=
  match value with
  | none => []
  | some v => [(key, encode v)]

/-- A slice field tagged `omitempty`: absent when the slice has length zero. -/
def omitEmptySlice {α : Type} (key : String) (encode : α → YamlNode) (value : List α) :
    List (String × YamlNode) :=
  if value.length = 0 then [] else [(key, YamlNode.sequence (value.map encode))]

def TektonMetadata.toYaml (m : TektonMetadata) : YamlNode :=
  .mapping (omitEmptyString "name" m.Name)

def TektonPipelineTaskRef.toYaml (r : TektonPipelineTaskRef) : YamlNode :=
  .mapping (omitEmptyString "name" r.Name)

def TektonWorkspace.toYaml (w : TektonWorkspace) : YamlNode :=
  .mapping (omitEmptyString "name" w.Name ++ omitEmptyString "mountPath" w.MountPath ++
    omitEmptyString "workspace" w.Workspace)

def TektonPipelineTask.toYaml (t : TektonPipelineTask) : YamlNode :=
  .mapping (omitEmptyString "name" t.Name ++
    omitEmptyPtr "taskRef" TektonPipelineTaskRef.toYaml t.TaskRef ++
    omitEmptySlice "runAfter" YamlNode.scalar t.RunAfter ++
    omitEmptySlice "workspaces" TektonWorkspace.toYaml t.Workspaces)

def TektonPipelineSpec.toYaml (s : TektonPipelineSpec) : YamlNode :=
  .mapping (omitEmptySlice "workspaces" TektonWorkspace.toYaml s.Workspaces ++
    omitEmptySlice "tasks" TektonPipelineTask.toYaml s.Tasks)

def TektonVolumeMount.toYaml (m : TektonVolumeMount) : YamlNode :=
  .mapping (omitEmptyString "name" m.Name ++ omitEmptyString "mountPath" m.MountPath)

def TektonVolumeHostPath.toYaml (h : TektonVolumeHostPath) : YamlNode :=
  .mapping (omitEmptyString "path" h.Path ++ omitEmptyString "type" h.Type_)

def TektonVolume.toYaml (v : TektonVolume) : YamlNode :=
  .mapping (omitEmptyString "name" v.Name ++
    omitEmptyPtr "hostPath" TektonVolumeHostPath.toYaml v.HostPath)

def TektonTaskStep.toYaml (s : TektonTaskStep) : YamlNode :=
  .mapping (omitEmptyString "name" s.Name ++ omitEmptyString "image" s.Image ++
    omitEmptySlice "args" YamlNode.scalar s.Args ++
    omitEmptySlice "volumeMounts" TektonVolumeMount.toYaml s.VolumeMounts)

def TektonTaskSpec.toYaml (s : TektonTaskSpec) : YamlNode :=
  .mapping (omitEmptySlice "workspaces" TektonWorkspace.toYaml s.Workspaces ++
    omitEmptySlice "steps" TektonTaskStep.toYaml s.Steps ++
    omitEmptySlice "volumes" TektonVolume.toYaml s.Volumes)

def TektonTask.toYaml (t : TektonTask) : YamlNode :=
  .mapping (omitEmptyString "apiVersion" t.APIVersion ++ omitEmptyString "kind" t.Kind ++
    omitEmptyPtr "metadata" TektonMetadata.toYaml t.Metadata ++
    omitEmptyPtr "spec" TektonTaskSpec.toYaml t.Spec)

/-- The document tree of a `TektonPipeline`; the unexported field `task` is not part
of it. -/
def TektonPipeline.toYaml (p : TektonPipeline) : YamlNode :=
  .mapping (omitEmptyString "apiVersion" p.APIVersion ++ omitEmptyString "kind" p.Kind ++
    omitEmptyPtr "metadata" TektonMetadata.toYaml p.Metadata ++
    omitEmptyPtr "spec" TektonPipelineSpec.toYaml p.Spec)

/-- The document tree of a `*TektonTask`: a nil pointer is the null document. -/
def taskDocument (task : Option TektonTask) : YamlNode :=
  match task with
  | none => .null
  | some t => t.toYaml

/-- The text encoder behind `yaml.Marshal`, with Go's result pair `(out []byte, err error)`:
`none` in the first component is a nil slice, `none` in the second a nil error. -/
abbrev Marshal (ε : Type) := YamlNode → Option String × Option ε

/-- `func (task *TektonTask) Generate() (out []byte, err error)`. -/
def TektonTask.Generate {ε : Type} (marshal : Marshal ε) (task : Option TektonTask) :
    Option String × Option ε :=
  marshal (taskDocument task)

/-- `func (p *TektonPipeline) Generate() (out []byte, err error)`. The named results
start as `(nil, nil)`; a bare `return` after a failed serialization returns `out = nil`
and the serializer's error. -/
def TektonPipeline.Generate {ε : Type} (marshal : Marshal ε) (p : TektonPipeline) :
    Option String × Option ε :=
  let (task, err) := TektonTask.Generate marshal p.task
  if err.isSome then (none, err)
  else
    let (pipeline, err) := marshal p.toYaml
    if err.isSome then (none, err)
    else (some (task.getD "" ++ "---\n" ++ pipeline.getD ""), none)

/-! ### Keys of a document tree -/

/-- The keys of a mapping node (none for any other node). -/
def YamlNode.keys : YamlNode → List String
  | .mapping fields => fields.map Prod.fst
  | _ => []

/-- The scalar stored under `key` in a mapping node, if there is one. -/
def YamlNode.scalarField (n : YamlNode) (key : String) : Option String :=
  match n with
  | .mapping fields =>
    match fields.find? (fun kv => kv.1 == key) with
    | some (_, .scalar s) => some s
    | _ => none
  | _ => none

mutual
/-- Whether `k` is a key of some mapping anywhere in the tree. -/
def YamlNode.hasKey (k : String) : YamlNode → Bool
  | .null => false
  | .scalar _ => false
  | .sequence items => hasKeySeq k items
  | .mapping fields => hasKeyMap k fields
/-- Whether `k` is a key somewhere in a list of nodes. -/
def hasKeySeq (k : String) : List YamlNode → Bool
  | [] => false
  | n :: rest => n.hasKey k || hasKeySeq k rest
/-- Whether `k` is a key somewhere in a list of fields. -/
def hasKeyMap (k : String) : List (String × YamlNode) → Bool
  | [] => false
  | (k1, n) :: rest => k1 == k || n.hasKey k || hasKeyMap k rest
end

/-! ### A reference text encoder

Block style as written by the Go YAML encoder: one `key: value` line per scalar field,
nested mappings indented by four columns, sequence items introduced by `- ` two columns
in. Scalars are written plain, so the encoder is exact for scalars that need no quoting.
It instantiates the `Marshal` parameter in the examples. -/

/-- Whether the node is written on the line of its key. -/
def YamlNode.inline : YamlNode → Bool
  | .null => true
  | .scalar _ => true
  | .sequence items => items.isEmpty
  | .mapping fields => fields.isEmpty

/-- The lines of a sequence item: `- ` before the first, two columns before the others. -/
def itemLines : List String → List String
  | [] => []
  | l :: ls => ("- " ++ l) :: ls.map (fun x => "  " ++ x)

/-- The lines of a mapping entry, given the lines of its value. -/
def entryLines (key : String) (value : YamlNode) (valueLines : List String) : List String :=
  if value.inline then [key ++ ": " ++ valueLines.headD ""]
  else
    match value with
    | .sequence _ => (key ++ ":") :: valueLines.map (fun x => "  " ++ x)
    | _ => (key ++ ":") :: valueLines.map (fun x => "    " ++ x)

mutual
/-- The lines of a node in block style. -/
def YamlNode.blockLines : YamlNode → List String
  | .null => ["null"]
  | .scalar s => [s]
  | .sequence [] => ["[]"]
  | .sequence (n :: rest) => seqLines (n :: rest)
  | .mapping [] => ["{}"]
  | .mapping (f :: rest) => mapLines (f :: rest)
/-- The lines of the items of a sequence. -/
def seqLines : List YamlNode → List String
  | [] => []
  | n :: rest => itemLines n.blockLines ++ seqLines rest
/-- The lines of the entries of a mapping. -/
def mapLines : List (String × YamlNode) → List String
  | [] => []
  | (k, n) :: rest => entryLines k n n.blockLines ++ mapLines rest
end

/-- The reference encoder: the block lines of the document, each ended by a newline;
it never fails. -/
def yamlMarshal : Marshal String := fun n =>
  (some (String.join (n.blockLines.map (fun l => l ++ "\n"))), none)

/-! ### Lines of a text -/

/-- The pieces of a text between its newlines. -/
def splitLines : List Char → List (List Char)
  | [] => [[]]
  | c :: t =>
    if c = '\n' then [] :: splitLines t
    else (c :: (splitLines t).headD []) :: (splitLines t).tail

/-- The lines of a text: the pieces between newlines, where a final newline ends the
last line instead of opening an empty one. -/
def textLines (s : String) : List (List Char) :=
  if (splitLines s.data).getLast? = some [] then (splitLines s.data).dropLast
  else splitLines s.data

/-- The YAML document separator line. -/
def separator : List Char := ['-', '-', '-']

/-- The number of separator lines of a text. -/
def separatorCount (s : String) : Nat := (textLines s).count separator

/-- A serialized document as the YAML encoder writes it: it ends with a newline and
none of its lines is a document separator. -/
def IsDocument (s : String) : Prop :=
  s.data.getLast? = some '\n' ∧ separator ∉ textLines s

instance (s : String) : Decidable (IsDocument s) := by unfold IsDocument; infer_instance

/-- The task document that the reference encoder writes for `Dir = "resources"`,
`FnPaths = []` and the image `gcr.io/example/fn:v1`. -/
def exampleTaskText : String :=
  "apiVersion: tekton.dev/v1beta1\nkind: Task\nmetadata:\n    name: run-kpt-functions\n" ++
  "spec:\n    workspaces:\n      - name: source\n        mountPath: /source\n" ++
  "    steps:\n      - name: run-kpt-functions\n        image: gcr.io/example/fn:v1\n" ++
  "        args:\n          - fn\n          - run\n" ++
  "          - $(workspaces.source.path)/resources\n" ++
  "        volumeMounts:\n          - name: docker-socket\n" ++
  "            mountPath: /var/run/docker.sock\n" ++
  "    volumes:\n      - name: docker-socket\n        hostPath:\n" ++
  "            path: /var/run/docker.sock\n            type: Socket\n"

/-- The pipeline document that the reference encoder writes (for every configuration). -/
def examplePipelineText : String :=
  "apiVersion: tekton.dev/v1beta1\nkind: Pipeline\nmetadata:\n    name: run-kpt-functions\n" ++
  "spec:\n    workspaces:\n      - name: shared-workspace\n" ++
  "    tasks:\n      - name: kpt\n        taskRef:\n            name: run-kpt-functions\n" ++
  "        workspaces:\n          - name: source\n            workspace: shared-workspace\n"

/-! ### Path elements -/

/-- The elements of a path: the pieces between its slashes, as `strings.Split(p, "/")`
gives them. -/
def segments : List Char → List (List Char)
  | [] => [[]]
  | c :: t =>
    if c = '/' then [] :: segments t
    else (c :: (segments t).headD []) :: (segments t).tail

/-- The path has a `..` element. -/
def HasDotDot (p : String) : Prop := ['.', '.'] ∈ segments p.data

instance (p : String) : Decidable (HasDotDot p) := by unfold HasDotDot; infer_instance

/-- No slash follows a slash. -/
def slashPair (a b : Char) : Prop := a = '/' → b ≠ '/'

/-- The invariant of the loop of `path.Clean` on an unrooted path, on the reversed
buffer: the last byte written is not a slash, no two slashes are adjacent, and the
first `dd` bytes written do not end with a slash. -/
def BufferOk (out : List Char) (dd : Nat) : Prop :=
  out.head? ≠ some '/' ∧ List.Chain' slashPair out ∧
    ∃ pre base, out = pre ++ base ∧ base.length = dd ∧ base.head? ≠ some '/'

/-- The lines of a generated text that follow its first separator line: the second
document of the stream. -/
def afterSeparator (s : String) : List (List Char) :=
  ((textLines s).dropWhile (fun l => decide (l ≠ separator))).tail

/-- Tekton's variable for the path of the workspace called `name` inside a task. -/
def workspacePathVariable (name : String) : String :=
  "$(workspaces." ++ name ++ ".path)"

/-! ## Printer selection (`vendor/sigs.k8s.io/cli-utils/cmd/printers/printers.go`) -/

/-- The constant `EventsPrinter`. -/
def EventsPrinter : String := "events"

/-- The constant `TablePrinter`. -/
def TablePrinter : String := "table"

/-- The constant `JSONPrinter`. -/
def JSONPrinter : String := "json"

/-- The three values `GetPrinter` can return, over the type `σ` of
`genericclioptions.IOStreams`: `&table.Printer{IOStreams: ioStreams}`,
`&list.BaseListPrinter{IOStreams: ioStreams, FormatterFactory: json.NewFormatter}` and
`events.NewPrinter(ioStreams)`. -/
inductive Printer (σ : Type) where
  | table (ioStreams : σ)
  | jsonList (ioStreams : σ)
  | events (ioStreams : σ)
  deriving DecidableEq, Repr

/-- `func GetPrinter(printerType string, ioStreams genericclioptions.IOStreams)
printer.Printer`: a `switch` on `printerType` with the cases `TablePrinter`,
`JSONPrinter` and `default`. -/
def GetPrinter {σ : Type} (printerType : String) (ioStreams : σ) : Printer σ :=
  if printerType = TablePrinter then Printer.table ioStreams
  else if printerType = JSONPrinter then Printer.jsonList ioStreams
  else Printer.events ioStreams

/-- `func SupportedPrinters() []string`. -/
def SupportedPrinters : List String := [EventsPrinter, TablePrinter, JSONPrinter]

/-- `func DefaultPrinter() string`. -/
def DefaultPrinter : String := EventsPrinter

/-! # Theorems -/

set_option maxRecDepth 100000

/-! ### The fuel of `cleanLoop` -/

theorem dropWhile_elem (c : Char) (t : List Char) (h : c ≠ '/') :
    (c :: t).dropWhile (· ≠ '/') = t.dropWhile (· ≠ '/') := by
  simp [List.dropWhile_cons, h]

theorem takeWhile_elem (c : Char) (t : List Char) (h : c ≠ '/') :
    (c :: t).takeWhile (· ≠ '/') = c :: t.takeWhile (· ≠ '/') := by
  simp [List.takeWhile_cons, h]

theorem cleanStep_rest_length (rooted : Bool) (c : Char) (rest out : List Char) (dotdot : Nat) :
    (cleanStep rooted c rest out dotdot).rest.length ≤ rest.length := by
  unfold cleanStep
  split_ifs with h1 h2 h3 h4 h5
  · exact le_refl _
  · exact le_refl _
  · simp
  · simp
  · simp
  · simp only [dropWhile_elem c rest h1]
    exact (List.dropWhile_sublist _).length_le

theorem cleanLoop_fuel (rooted : Bool) :
    ∀ (f1 f2 : Nat) (rest out : List Char) (dotdot : Nat),
      rest.length ≤ f1 → rest.length ≤ f2 →
      cleanLoop rooted f1 rest out dotdot = cleanLoop rooted f2 rest out dotdot := by
  intro f1
  induction f1 with
  | zero =>
    intro f2 rest out dotdot h1 _
    have : rest = [] := List.length_eq_zero.mp (Nat.le_zero.mp h1)
    subst this
    cases f2 <;> simp [cleanLoop]
  | succ n ih =>
    intro f2 rest out dotdot h1 h2
    cases rest with
    | nil => cases f2 <;> simp [cleanLoop]
    | cons c t =>
      cases f2 with
      | zero => simp at h2
      | succ m =>
        simp only [cleanLoop]
        have hlen := cleanStep_rest_length rooted c t out dotdot
        simp only [List.length_cons] at h1 h2
        exact ih m _ _ _ (by omega) (by omega)

/-- The loop of `path.Clean` run to completion. -/
theorem cleanLoop_cons (rooted : Bool) (f : Nat) (c : Char) (t out : List Char) (dotdot : Nat)
    (hf : (c :: t).length ≤ f) :
    cleanLoop rooted f (c :: t) out dotdot =
      cleanLoop rooted (cleanStep rooted c t out dotdot).rest.length
        (cleanStep rooted c t out dotdot).rest (cleanStep rooted c t out dotdot).out
        (cleanStep rooted c t out dotdot).dotdot := by
  cases f with
  | zero => simp at hf
  | succ m =>
    simp only [cleanLoop]
    have hlen := cleanStep_rest_length rooted c t out dotdot
    simp only [List.length_cons] at hf
    exact cleanLoop_fuel rooted _ _ _ _ _ (by omega) (le_refl _)


/-- An invariant of the loop body holds of the final buffer, whatever the fuel. -/
theorem cleanLoop_invariant (rooted : Bool) (P : List Char → List Char → Nat → Prop)
    (hstep : ∀ c t out dd, P (c :: t) out dd →
      P (cleanStep rooted c t out dd).rest (cleanStep rooted c t out dd).out
        (cleanStep rooted c t out dd).dotdot) :
    ∀ (fuel : Nat) (rest out : List Char) (dd : Nat), P rest out dd →
      ∃ rest1 dd1, P rest1 (cleanLoop rooted fuel rest out dd) dd1 := by
  intro fuel
  induction fuel with
  | zero => intro rest out dd h; exact ⟨rest, dd, by simpa [cleanLoop] using h⟩
  | succ n ih =>
    intro rest out dd h
    cases rest with
    | nil => exact ⟨[], dd, by simpa [cleanLoop] using h⟩
    | cons c t =>
      simp only [cleanLoop]
      exact ih _ _ _ (hstep c t out dd h)

/-! ### Trailing slashes -/

theorem cleanLoop_slashes (rooted : Bool) (k : Nat) :
    ∀ (f : Nat) (out : List Char) (dd : Nat),
      cleanLoop rooted f (List.replicate k '/') out dd = out := by
  induction k with
  | zero => intro f out dd; cases f <;> simp [cleanLoop]
  | succ k ih =>
    intro f out dd
    cases f with
    | zero => simp [cleanLoop]
    | succ f =>
      simp only [List.replicate_succ, cleanLoop, cleanStep, if_true]
      exact ih f out dd

theorem head?_append_slashes (t : List Char) (k : Nat) (ht : t ≠ []) :
    (t ++ List.replicate k '/').head? = t.head? := by
  cases t with
  | nil => exact absurd rfl ht
  | cons a t => rfl

theorem elem_end_append_slashes (t : List Char) (k : Nat) :
    (t ++ List.replicate k '/' = [] ∨ (t ++ List.replicate k '/').head? = some '/') ↔
      (t = [] ∨ t.head? = some '/') := by
  cases t with
  | nil =>
    cases k with
    | zero => simp
    | succ k => simp [List.replicate_succ]
  | cons a t => simp

theorem takeWhile_append_slashes (t : List Char) (k : Nat) :
    (t ++ List.replicate k '/').takeWhile (· ≠ '/') = t.takeWhile (· ≠ '/') := by
  induction t with
  | nil => cases k <;> simp [List.replicate_succ]
  | cons a t ih =>
    by_cases h : a = '/'
    · simp [List.takeWhile_cons, h]
    · simp only [List.cons_append, List.takeWhile_cons, ih]

theorem dropWhile_append_slashes (t : List Char) (k : Nat) :
    (t ++ List.replicate k '/').dropWhile (· ≠ '/') =
      t.dropWhile (· ≠ '/') ++ List.replicate k '/' := by
  induction t with
  | nil => cases k <;> simp [List.replicate_succ]
  | cons a t ih =>
    by_cases h : a = '/'
    · simp [List.dropWhile_cons, h]
    · simp only [List.cons_append, List.dropWhile_cons, ih]
      simp [h]

theorem cleanStep_append_slashes (rooted : Bool) (c : Char) (t out : List Char) (dd k : Nat) :
    cleanStep rooted c (t ++ List.replicate k '/') out dd =
      { rest := (cleanStep rooted c t out dd).rest ++ List.replicate k '/',
        out := (cleanStep rooted c t out dd).out,
        dotdot := (cleanStep rooted c t out dd).dotdot } := by
  have htw := takeWhile_append_slashes (c :: t) k
  have hdw := dropWhile_append_slashes (c :: t) k
  simp only [List.cons_append] at htw hdw
  cases t with
  | nil =>
    cases k with
    | zero => simp
    | succ k =>
      simp only [List.nil_append] at htw hdw ⊢
      unfold cleanStep
      rw [htw, hdw]
      by_cases h1 : c = '/'
      · simp [h1]
      · by_cases h2 : c = '.'
        · simp [h2, List.replicate_succ]
        · simp [h1, h2]
  | cons a t1 =>
    unfold cleanStep
    rw [htw, hdw]
    simp only [List.cons_append, List.head?_cons, List.tail_cons, elem_end_append_slashes]
    split_ifs <;> simp

theorem cleanLoop_append_slashes (rooted : Bool) (k : Nat) :
    ∀ (n : Nat) (rest out : List Char) (dd : Nat), rest.length ≤ n →
      cleanLoop rooted (rest ++ List.replicate k '/').length (rest ++ List.replicate k '/') out dd
        = cleanLoop rooted rest.length rest out dd := by
  intro n
  induction n with
  | zero =>
    intro rest out dd h
    have : rest = [] := List.length_eq_zero.mp (Nat.le_zero.mp h)
    subst this
    simp [cleanLoop_slashes, cleanLoop]
  | succ n ih =>
    intro rest out dd h
    cases rest with
    | nil => simp [cleanLoop_slashes, cleanLoop]
    | cons c t =>
      rw [cleanLoop_cons rooted _ c t out dd (le_refl _)]
      have h1 : (c :: t ++ List.replicate k '/') = c :: (t ++ List.replicate k '/') := rfl
      rw [h1, cleanLoop_cons rooted _ c _ out dd (le_refl _), cleanStep_append_slashes]
      have hlen := cleanStep_rest_length rooted c t out dd
      simp only [List.length_cons] at h
      exact ih _ _ _ (by omega)


/-! ### The cleaned path of an unrooted input: no leading and no trailing slash -/

theorem backtrack_suffix : ∀ (out : List Char) (dd : Nat), backtrack out dd <:+ out := by
  intro out
  induction out with
  | nil => intro dd; simp [backtrack]
  | cons c rest ih =>
    intro dd
    unfold backtrack
    split_ifs
    · exact (ih dd).trans (List.suffix_cons c rest)
    · exact List.suffix_cons c rest

theorem getLast?_of_suffix (s out : List Char) (h : s <:+ out)
    (hout : out.getLast? ≠ some '/') : s.getLast? ≠ some '/' := by
  obtain ⟨pre, rfl⟩ := h
  cases s with
  | nil => simp
  | cons a s => simpa [List.getLast?_append] using hout

/-- What the loop keeps true of the buffer of an unrooted path: its first byte is not a
slash. -/
theorem cleanStep_no_leading_slash (c : Char) (t out : List Char) (dd : Nat)
    (h : out.getLast? ≠ some '/') :
    (cleanStep false c t out dd).out.getLast? ≠ some '/' := by
  unfold cleanStep
  split_ifs with h1 h2 h3 h4
  · exact h
  · exact h
  · exact getLast?_of_suffix _ _ (backtrack_suffix out dd) h
  · cases out with
    | nil => simp [appendSlashIfNonEmpty]
    | cons a out =>
      simp only [appendSlashIfNonEmpty, List.length_cons, Nat.zero_lt_succ, if_true]
      simpa [List.getLast?_cons_cons] using h
  · exact absurd rfl ‹¬false = false›
  · rw [takeWhile_elem c t h1]
    cases out with
    | nil => simp [appendSlashIfNeeded, h1]
    | cons a out =>
      simp only [appendSlashIfNeeded, List.length_cons]
      simpa [List.getLast?_append, List.getLast?_cons_cons] using h

theorem backtrack_ok : ∀ (out : List Char) (dd : Nat), List.Chain' slashPair out →
    (∃ pre base, out = pre ++ base ∧ base.length = dd ∧ base.head? ≠ some '/') →
    out.length > dd → BufferOk (backtrack out dd) dd := by
  intro out
  induction out with
  | nil => intro dd _ _ h; simp at h
  | cons c rest ih =>
    intro dd hch hbase hlen
    obtain ⟨pre, base, hsplit, hbl, hbh⟩ := hbase
    have hrest : ∃ pre1, rest = pre1 ++ base := by
      cases pre with
      | nil =>
        simp only [List.nil_append] at hsplit
        subst hsplit
        simp only [List.length_cons] at hlen hbl
        omega
      | cons a pre1 =>
        simp only [List.cons_append, List.cons.injEq] at hsplit
        exact ⟨pre1, hsplit.2⟩
    obtain ⟨pre1, hpre1⟩ := hrest
    unfold backtrack
    split_ifs with hgo
    · exact ih dd hch.tail ⟨pre1, base, hpre1, hbl, hbh⟩ hgo.1
    · refine ⟨?_, hch.tail, ⟨pre1, base, hpre1, hbl, hbh⟩⟩
      by_cases hc : c = '/'
      · cases rest with
        | nil => simp
        | cons b rest =>
          have := (List.chain'_cons.mp hch).1 hc
          simpa using this
      · have hle : rest.length ≤ dd := by
          by_contra hgt
          exact hgo ⟨by omega, hc⟩
        have hp : pre1 = [] := by
          have : rest.length = pre1.length + base.length := by rw [hpre1]; simp
          apply List.length_eq_zero.mp
          omega
        subst hp
        simpa [hpre1] using hbh

theorem chain_of_no_slash (l : List Char) (h : ∀ x ∈ l, x ≠ '/') : List.Chain' slashPair l := by
  induction l with
  | nil => exact List.chain'_nil
  | cons a l ih =>
    rw [List.chain'_cons']
    refine ⟨?_, ih (fun x hx => h x (List.mem_cons_of_mem a hx))⟩
    intro y _ ha
    exact absurd ha (h a (List.mem_cons_self a l))

theorem appendSlashIfNeeded_unrooted (out : List Char) :
    appendSlashIfNeeded false out = out ∨ appendSlashIfNeeded false out = '/' :: out := by
  unfold appendSlashIfNeeded
  by_cases hz : out.length = 0 <;> simp [hz]

theorem cleanStep_ok (c : Char) (t out : List Char) (dd : Nat) (h : BufferOk out dd) :
    BufferOk (cleanStep false c t out dd).out (cleanStep false c t out dd).dotdot := by
  obtain ⟨hhead, hch, pre, base, hsplit, hbl, hbh⟩ := h
  unfold cleanStep
  split_ifs with h1 h2 h3 h4
  · exact ⟨hhead, hch, pre, base, hsplit, hbl, hbh⟩
  · exact ⟨hhead, hch, pre, base, hsplit, hbl, hbh⟩
  · exact backtrack_ok out dd hch ⟨pre, base, hsplit, hbl, hbh⟩ h4
  · refine ⟨by simp, ?_, [], _, rfl, by simp, by simp⟩
    cases out with
    | nil => simp [appendSlashIfNonEmpty, slashPair]
    | cons a out =>
      simp only [appendSlashIfNonEmpty, List.length_cons, Nat.zero_lt_succ, if_true]
      refine List.chain'_cons.mpr ⟨by simp [slashPair], List.chain'_cons.mpr ⟨by simp [slashPair], ?_⟩⟩
      refine List.chain'_cons.mpr ⟨?_, hch⟩
      intro _
      simpa using hhead
  · exact absurd rfl ‹¬false = false›
  · rw [takeWhile_elem c t h1]
    have hnil : (c :: List.takeWhile (fun x => decide (x ≠ '/')) t).reverse ≠ [] := by simp
    have hel : ∀ x ∈ (c :: List.takeWhile (fun x => decide (x ≠ '/')) t).reverse, x ≠ '/' := by
      intro x hx
      rw [List.mem_reverse, List.mem_cons] at hx
      rcases hx with rfl | hx
      · exact h1
      · simpa using List.mem_takeWhile_imp hx
    generalize (c :: List.takeWhile (fun x => decide (x ≠ '/')) t).reverse = el at hel hnil
    have hX : List.Chain' slashPair (appendSlashIfNeeded false out) ∧
        ∃ pre1, appendSlashIfNeeded false out = pre1 ++ base := by
      rcases appendSlashIfNeeded_unrooted out with hX | hX <;> rw [hX]
      · exact ⟨hch, pre, hsplit⟩
      · refine ⟨List.chain'_cons'.mpr ⟨?_, hch⟩, '/' :: pre, by simp [hsplit]⟩
        intro y hy _ hy2
        exact hhead (by rw [← hy2]; exact hy)
    obtain ⟨hXch, pre1, hX⟩ := hX
    refine ⟨?_, ?_, el ++ pre1, base, by simp [hX], hbl, hbh⟩
    · cases el with
      | nil => exact absurd rfl hnil
      | cons a el => simpa using hel a (List.mem_cons_self a el)
    · refine List.chain'_append.mpr ⟨chain_of_no_slash el hel, hXch, ?_⟩
      intro x hx y _ hx2
      exact absurd hx2 (hel x (List.mem_of_mem_getLast? hx))


/-! ### `path.Clean` and `path.Join` on unrooted paths -/

theorem mk_eq_empty (l : List Char) : (String.mk l = "") ↔ l = [] := by
  constructor
  · intro h
    have := congrArg String.data h
    simpa using this
  · rintro rfl
    rfl

/-- The reversed buffer that `Clean` ends with on an unrooted path. -/
theorem Clean_unrooted (l : List Char) (hne : l ≠ []) (hroot : l.head? ≠ some '/') :
    Clean (String.mk l) =
      if (cleanLoop false l.length l [] 0).length = 0 then "."
      else String.mk (cleanLoop false l.length l [] 0).reverse := by
  unfold Clean
  rw [if_neg (by rw [mk_eq_empty]; exact hne)]
  simp only [String.length]
  rw [if_neg hroot]

theorem Clean_append_slashes (l : List Char) (k : Nat) (hne : l ≠ [])
    (hroot : l.head? ≠ some '/') :
    Clean (String.mk (l ++ List.replicate k '/')) = Clean (String.mk l) := by
  have hne2 : l ++ List.replicate k '/' ≠ [] := by simp [hne]
  have hroot2 : (l ++ List.replicate k '/').head? ≠ some '/' := by
    rw [head?_append_slashes l k hne]; exact hroot
  rw [Clean_unrooted _ hne2 hroot2, Clean_unrooted _ hne hroot,
    cleanLoop_append_slashes false k l.length l [] 0 (le_refl _)]

theorem Clean_no_trailing_slash (l : List Char) (hroot : l.head? ≠ some '/') :
    (Clean (String.mk l)).data.getLast? ≠ some '/' := by
  by_cases hne : l = []
  · subst hne; decide
  · rw [Clean_unrooted l hne hroot]
    obtain ⟨_, _, hok⟩ := cleanLoop_invariant false (fun _ out dd => BufferOk out dd)
      (fun c t out dd h => cleanStep_ok c t out dd h) l.length l [] 0
      ⟨by simp, List.chain'_nil, [], [], rfl, rfl, by simp⟩
    split_ifs
    · decide
    · simpa [List.getLast?_reverse] using hok.1

theorem Clean_not_absolute (l : List Char) (hroot : l.head? ≠ some '/') :
    (Clean (String.mk l)).data.head? ≠ some '/' := by
  by_cases hne : l = []
  · subst hne; decide
  · rw [Clean_unrooted l hne hroot]
    obtain ⟨_, _, hok⟩ := cleanLoop_invariant false (fun _ out _ => out.getLast? ≠ some '/')
      (fun c t out dd h => cleanStep_no_leading_slash c t out dd h) l.length l [] 0 (by simp)
    split_ifs
    · decide
    · simpa [List.head?_reverse] using hok

/-- What `path.Join` computes for the workspace root and one more element. -/
theorem Join_workspaceRoot (d : String) :
    Join [workspaceRoot, d] = Clean (String.mk (workspaceRoot.data ++ '/' :: d.data)) := by
  have h : workspaceRoot ≠ "" := by decide
  simp only [Join, stringsJoin, List.foldl, if_pos h]
  rfl


theorem segments_dropWhile (l : List Char) :
    segments (l.dropWhile (· ≠ '/')) = [] :: (segments l).tail := by
  induction l with
  | nil => rfl
  | cons a l ih =>
    by_cases h : a = '/'
    · subst h
      simp [segments]
    · rw [dropWhile_elem a l h, ih]
      simp [segments, h]

theorem cleanStep_keeps_root (root : List Char) (c : Char) (t out : List Char) (dd : Nat)
    (h : ['.', '.'] ∉ segments (c :: t) ∧ root <:+ out) :
    ['.', '.'] ∉ segments (cleanStep false c t out dd).rest ∧
      root <:+ (cleanStep false c t out dd).out := by
  obtain ⟨hdd, hsuf⟩ := h
  unfold cleanStep
  split_ifs with h1 h2 h3 h4
  · subst h1
    refine ⟨?_, hsuf⟩
    intro hmem
    exact hdd (by simp [segments, hmem])
  · refine ⟨?_, hsuf⟩
    obtain ⟨rfl, ht⟩ := h2
    intro hmem
    apply hdd
    cases t with
    | nil => simp [segments] at hmem
    | cons b t =>
      have hb : b = '/' := by simpa using ht
      subst hb
      simp only [segments, if_true] at hmem ⊢
      simp at hmem ⊢
      exact hmem
  · exfalso
    obtain ⟨rfl, ht, ht2⟩ := h3
    apply hdd
    cases t with
    | nil => simp at ht
    | cons b t =>
      have hb : b = '.' := by simpa using ht
      subst hb
      cases t with
      | nil => decide
      | cons e t =>
        have he : e = '/' := by simpa using ht2
        subst he
        simp [segments]
  · exfalso
    obtain ⟨rfl, ht, ht2⟩ := h3
    apply hdd
    cases t with
    | nil => simp at ht
    | cons b t =>
      have hb : b = '.' := by simpa using ht
      subst hb
      cases t with
      | nil => decide
      | cons e t =>
        have he : e = '/' := by simpa using ht2
        subst he
        simp [segments]
  · exact absurd rfl ‹¬false = false›
  · constructor
    · rw [segments_dropWhile]
      intro hmem
      rcases List.mem_cons.mp hmem with h0 | h0
      · simp at h0
      · exact hdd (List.mem_of_mem_tail h0)
    · rcases appendSlashIfNeeded_unrooted out with hX | hX <;> rw [hX]
      · exact hsuf.trans (List.suffix_append _ _)
      · exact hsuf.trans ((List.suffix_cons _ _).trans (List.suffix_append _ _))


theorem workspaceRoot_no_slash : ∀ x ∈ workspaceRoot.data, x ≠ '/' := by decide

theorem workspaceRoot_data :
    workspaceRoot.data = '$' :: "(workspaces.source.path)".data := by decide

/-- The first iteration of the loop on a path that starts with the workspace root copies
the root into the buffer. -/
theorem cleanLoop_workspaceRoot (d : List Char) :
    cleanLoop false (workspaceRoot.data ++ '/' :: d).length (workspaceRoot.data ++ '/' :: d) [] 0
      = cleanLoop false ('/' :: d).length ('/' :: d) workspaceRoot.data.reverse 0 := by
  have htw : (workspaceRoot.data ++ '/' :: d).takeWhile (· ≠ '/') = workspaceRoot.data := by
    rw [List.takeWhile_append_of_pos (by simpa using workspaceRoot_no_slash)]
    simp
  have hdw : (workspaceRoot.data ++ '/' :: d).dropWhile (· ≠ '/') = '/' :: d := by
    rw [List.dropWhile_append_of_pos (by simpa using workspaceRoot_no_slash)]
    simp
  have hstep : cleanStep false '$' ("(workspaces.source.path)".data ++ '/' :: d) [] 0 =
      { rest := '/' :: d, out := ('$' :: "(workspaces.source.path)".data).reverse,
        dotdot := 0 } := by
    rw [workspaceRoot_data, List.cons_append] at htw hdw
    unfold cleanStep
    rw [htw, hdw, if_neg (by decide), if_neg (fun h => absurd h.1 (by decide)),
      if_neg (fun h => absurd h.1 (by decide))]
    have : appendSlashIfNeeded false [] = [] := rfl
    rw [this, List.append_nil]
  rw [workspaceRoot_data, List.cons_append, cleanLoop_cons false _ _ _ _ _ (le_refl _), hstep]

theorem Join_keeps_workspaceRoot (d : String) (h : ¬ HasDotDot d) :
    workspaceRoot.data <+: (Join [workspaceRoot, d]).data := by
  rw [Join_workspaceRoot, Clean_unrooted _ (by simp) (by rw [workspaceRoot_data]; simp),
    cleanLoop_workspaceRoot]
  obtain ⟨_, _, _, hsuf⟩ := cleanLoop_invariant false
    (fun rest out _ => ['.', '.'] ∉ segments rest ∧ workspaceRoot.data.reverse <:+ out)
    (fun c t out dd hP => cleanStep_keeps_root _ c t out dd hP)
    ('/' :: d.data).length ('/' :: d.data) workspaceRoot.data.reverse 0
    ⟨by
      intro hmem
      apply h
      unfold HasDotDot
      simpa [segments] using hmem, List.suffix_refl _⟩
  have hne : (cleanLoop false ('/' :: d.data).length ('/' :: d.data)
      workspaceRoot.data.reverse 0).length ≠ 0 := by
    intro h0
    have := hsuf.length_le
    rw [h0] at this
    simp [workspaceRoot] at this
  rw [if_neg hne]
  exact List.reverse_suffix.mp (by simpa using hsuf)

theorem Join_not_absolute (d : String) :
    (Join [workspaceRoot, d]).data.head? ≠ some '/' := by
  rw [Join_workspaceRoot]
  exact Clean_not_absolute _ (by rw [workspaceRoot_data]; simp)

theorem Join_no_trailing_slash (d : String) :
    (Join [workspaceRoot, d]).data.getLast? ≠ some '/' := by
  rw [Join_workspaceRoot]
  exact Clean_no_trailing_slash _ (by rw [workspaceRoot_data]; simp)

theorem Join_append_slashes (d : String) (k : Nat) :
    Join [workspaceRoot, d ++ slashes k] = Join [workspaceRoot, d] := by
  rw [Join_workspaceRoot, Join_workspaceRoot]
  have : workspaceRoot.data ++ '/' :: (d ++ slashes k).data =
      (workspaceRoot.data ++ '/' :: d.data) ++ List.replicate k '/' := by
    simp [String.data_append, slashes]
  rw [this]
  exact Clean_append_slashes _ k (by simp) (by rw [workspaceRoot_data]; simp)

/-! ## The step arguments -/

/-- The `append` loop over `FnPaths` adds one pair per entry, in order. -/
theorem foldl_fnPaths (fnPaths : List String) :
    ∀ args : List String,
      fnPaths.foldl (fun args fnPath => args ++ ["--fn-path", Join [workspaceRoot, fnPath]]) args
        = args ++ (fnPaths.map (fun f => ["--fn-path", Join [workspaceRoot, f]])).flatten := by
  induction fnPaths with
  | nil => intro args; simp
  | cons f fs ih => intro args; simp [List.foldl, ih]

theorem stepArgs_eq (c : PipelineConfig) :
    stepArgs c = ["fn", "run", Join [workspaceRoot, c.Dir]] ++
      (c.FnPaths.map (fun f => ["--fn-path", Join [workspaceRoot, f]])).flatten := by
  unfold stepArgs
  split_ifs with h
  · exact foldl_fnPaths _ _
  · have : c.FnPaths = [] := List.length_eq_zero.mp (by omega)
    simp [this]

theorem steps_Init (K : String) (p : TektonPipeline) (c : PipelineConfig) :
    (TektonPipeline.Init K p c).steps =
      [{ Name := "run-kpt-functions", Image := K, Args := stepArgs c,
         VolumeMounts := [{ Name := "docker-socket", MountPath := "/var/run/docker.sock" }] }] :=
  rfl

theorem pairs_length (fs : List String) :
    ((fs.map (fun f => ["--fn-path", Join [workspaceRoot, f]])).flatten).length = 2 * fs.length := by
  induction fs with
  | nil => rfl
  | cons f fs ih => simp [ih]; omega

theorem pairs_get (fs : List String) :
    ∀ i, i < fs.length →
      ((fs.map (fun f => ["--fn-path", Join [workspaceRoot, f]])).flatten)[2 * i]? = some "--fn-path" ∧
      ((fs.map (fun f => ["--fn-path", Join [workspaceRoot, f]])).flatten)[2 * i + 1]? =
        (fs[i]?).map (fun f => Join [workspaceRoot, f]) := by
  induction fs with
  | nil => intro i h; simp at h
  | cons f fs ih =>
    intro i h
    cases i with
    | zero => simp
    | succ i =>
      have := ih i (by simpa using h)
      simp only [List.map_cons, List.flatten_cons, List.cons_append, List.nil_append]
      have e1 : 2 * (i + 1) = (2 * i) + 1 + 1 := by ring
      have e2 : 2 * (i + 1) + 1 = (2 * i + 1) + 1 + 1 := by ring
      rw [e2, e1]
      simpa using this

/-- C1 (counterexample). For `Dir = "resources"`, `FnPaths = []` the argument list of
the step is `["fn", "run", "$(workspaces.source.path)/resources"]`: element 0 is
`"fn"`, not `"run"`, and element 1 is `"run"`, not the joined directory. -/
theorem step_args_first_is_fn :
    (TektonPipeline.Init "gcr.io/kpt-dev/kpt:latest" TektonPipeline.zero
        { Dir := "resources", FnPaths := [], Image := "gcr.io/example/fn:v1" }).steps.map
      (fun s => s.Args) = [["fn", "run", "$(workspaces.source.path)/resources"]] ∧
    (TektonPipeline.Init "gcr.io/kpt-dev/kpt:latest" TektonPipeline.zero
        { Dir := "resources", FnPaths := [], Image := "gcr.io/example/fn:v1" }).steps.map
      (fun s => s.Args) ≠ [["run", "$(workspaces.source.path)/resources"]] ∧
    (TektonPipeline.Init "gcr.io/kpt-dev/kpt:latest" TektonPipeline.zero
        { Dir := "", FnPaths := ["functions", "extra/fns"], Image := "" }).steps.map
      (fun s => s.Args.take 2) ≠ [["run", "$(workspaces.source.path)"]] := by
  decide

/-- C1 (amended). For every configuration the task has a single step whose argument
list begins with the three elements `"fn"`, `"run"` and
`path.Join("$(workspaces.source.path)", config.Dir)`. -/
theorem step_args_begin (K : String) (p : TektonPipeline) (c : PipelineConfig) :
    ∃ s rest, (TektonPipeline.Init K p c).steps = [s] ∧
      s.Args = "fn" :: "run" :: Join [workspaceRoot, c.Dir] :: rest :=
  ⟨_, _, steps_Init K p c, stepArgs_eq c⟩

/-- C2. The arguments that follow the directory argument are exactly
`2 * len(FnPaths)` elements: at offset `2i` the literal `--fn-path`, at offset `2i+1`
the join of the workspace root with `FnPaths[i]`, in input order; nothing follows the
directory argument when `FnPaths` is empty. -/
theorem step_args_fn_paths (K : String) (p : TektonPipeline) (c : PipelineConfig) :
    ∃ s rest, (TektonPipeline.Init K p c).steps = [s] ∧
      s.Args = ["fn", "run", Join [workspaceRoot, c.Dir]] ++ rest ∧
      rest.length = 2 * c.FnPaths.length ∧
      (∀ i, ∀ h : i < c.FnPaths.length,
        rest[2 * i]? = some "--fn-path" ∧
        rest[2 * i + 1]? = some (Join [workspaceRoot, c.FnPaths[i]])) ∧
      (c.FnPaths = [] → rest = []) := by
  refine ⟨_, _, steps_Init K p c, stepArgs_eq c, pairs_length _, ?_, ?_⟩
  · intro i h
    have := pairs_get c.FnPaths i h
    refine ⟨this.1, ?_⟩
    rw [this.2, List.getElem?_eq_getElem h]
    rfl
  · intro h
    simp [h]


/-! ## Lines of the generated text -/

theorem splitLines_ne_nil (l : List Char) : splitLines l ≠ [] := by
  cases l with
  | nil => simp [splitLines]
  | cons c t =>
    unfold splitLines
    split_ifs <;> simp

theorem splitLines_append_newline (a b : List Char) :
    splitLines (a ++ '\n' :: b) = splitLines a ++ splitLines b := by
  induction a with
  | nil => simp [splitLines]
  | cons c a ih =>
    have hb := splitLines_ne_nil a
    by_cases h : c = '\n'
    · simp [splitLines, h, ih]
    · rw [List.cons_append, splitLines, if_neg h, ih, splitLines, if_neg h]
      cases hsa : splitLines a with
      | nil => exact absurd hsa hb
      | cons x xs => simp

theorem textLines_newline (x : List Char) :
    textLines (String.mk (x ++ ['\n'])) = splitLines x := by
  have h : splitLines (x ++ ['\n']) = splitLines x ++ [[]] := by
    rw [splitLines_append_newline]; rfl
  unfold textLines
  simp only [h]
  simp

theorem data_of_document (s : String) (h : s.data.getLast? = some '\n') :
    ∃ x, s = String.mk (x ++ ['\n']) := by
  rcases List.eq_nil_or_concat s.data with h0 | ⟨x, b, hx⟩
  · rw [h0] at h; simp at h
  · rw [List.concat_eq_append] at hx
    rw [hx] at h
    have hb : b = '\n' := by simpa using h
    subst hb
    exact ⟨x, by rw [← hx]⟩

/-- The lines of two documents joined by the separator line. -/
theorem textLines_joined (t p : String) (ht : t.data.getLast? = some '\n')
    (hp : p.data.getLast? = some '\n') :
    textLines (t ++ "---\n" ++ p) = textLines t ++ [separator] ++ textLines p := by
  obtain ⟨x, rfl⟩ := data_of_document t ht
  obtain ⟨y, rfl⟩ := data_of_document p hp
  have e : (String.mk (x ++ ['\n']) ++ "---\n" ++ String.mk (y ++ ['\n'])) =
      String.mk ((x ++ '\n' :: ('-' :: '-' :: '-' :: '\n' :: y)) ++ ['\n']) := by
    apply String.ext
    simp [String.data_append]
  rw [e, textLines_newline, textLines_newline, textLines_newline, splitLines_append_newline]
  have e2 : ('-' :: '-' :: '-' :: '\n' :: y) = separator ++ '\n' :: y := rfl
  rw [e2, splitLines_append_newline]
  have e3 : splitLines separator = [separator] := by decide
  rw [e3]
  simp


/-! ## `Generate` -/

theorem Generate_ok {ε : Type} (marshal : Marshal ε) (q : TektonPipeline) (t p : String)
    (ht : marshal (taskDocument q.task) = (some t, none))
    (hp : marshal q.toYaml = (some p, none)) :
    TektonPipeline.Generate marshal q = (some (t ++ "---\n" ++ p), none) := by
  simp [TektonPipeline.Generate, TektonTask.Generate, ht, hp]

/-- C3. When both documents are serialized, `Generate` after `Init` returns exactly the
task document, the separator line `---` and the pipeline document, in this order (kind
`Task` first, kind `Pipeline` second). For serialized documents as the encoder writes
them (newline-terminated, no separator line of their own) the separator line occurs
exactly once and the output neither starts nor ends with a separator line. -/
theorem generate_layout {ε : Type} (marshal : Marshal ε) (K : String) (s : TektonPipeline)
    (c : PipelineConfig) (t p : String)
    (ht : marshal (taskDocument (TektonPipeline.Init K s c).task) = (some t, none))
    (hp : marshal (TektonPipeline.Init K s c).toYaml = (some p, none))
    (hdt : IsDocument t) (hdp : IsDocument p) :
    TektonPipeline.Generate marshal (TektonPipeline.Init K s c) =
        (some (t ++ "---\n" ++ p), none) ∧
      (taskDocument (TektonPipeline.Init K s c).task).scalarField "kind" = some "Task" ∧
      (TektonPipeline.Init K s c).toYaml.scalarField "kind" = some "Pipeline" ∧
      textLines (t ++ "---\n" ++ p) = textLines t ++ [separator] ++ textLines p ∧
      separatorCount (t ++ "---\n" ++ p) = 1 ∧
      (textLines (t ++ "---\n" ++ p)).head? ≠ some separator ∧
      (textLines (t ++ "---\n" ++ p)).getLast? ≠ some separator := by
  have hl := textLines_joined t p hdt.1 hdp.1
  obtain ⟨x, hx⟩ := data_of_document t hdt.1
  obtain ⟨y, hy⟩ := data_of_document p hdp.1
  have hnt : textLines t ≠ [] := by rw [hx, textLines_newline]; exact splitLines_ne_nil x
  have hnp : textLines p ≠ [] := by rw [hy, textLines_newline]; exact splitLines_ne_nil y
  refine ⟨Generate_ok marshal _ t p ht hp, rfl, rfl, hl, ?_, ?_, ?_⟩
  · unfold separatorCount
    rw [hl, List.count_append, List.count_append, List.count_eq_zero.mpr hdt.2,
      List.count_eq_zero.mpr hdp.2]
    simp
  · rw [hl]
    intro h
    cases htl : textLines t with
    | nil => exact hnt htl
    | cons a l =>
      rw [htl] at h
      have : a = separator := by simpa using h
      exact hdt.2 (by rw [htl, this]; exact List.mem_cons_self _ _)
  · rw [hl]
    intro h
    rw [List.getLast?_append_of_ne_nil _ hnp] at h
    exact hdp.2 (List.mem_of_mem_getLast? (Option.mem_def.mpr h))

/-- C3 (witness). The reference encoder on `Dir = "resources"`, `FnPaths = []`. -/
theorem generate_layout_witness :
    TektonPipeline.Generate yamlMarshal (TektonPipeline.Init "gcr.io/example/fn:v1"
        TektonPipeline.zero
        { Dir := "resources", FnPaths := [], Image := "gcr.io/example/fn:v1" }) =
      (some (exampleTaskText ++ "---\n" ++ examplePipelineText), none) ∧
    IsDocument exampleTaskText ∧ IsDocument examplePipelineText ∧
    separatorCount (exampleTaskText ++ "---\n" ++ examplePipelineText) = 1 :=
  have h := generate_layout yamlMarshal "gcr.io/example/fn:v1" TektonPipeline.zero
    { Dir := "resources", FnPaths := [], Image := "gcr.io/example/fn:v1" }
    exampleTaskText examplePipelineText (by decide) (by decide) (by decide) (by decide)
  ⟨h.1, by decide, by decide, h.2.2.2.2.1⟩

/-- C4 (counterexample). `Generate` on a builder that was never initialised returns no
error: with the reference encoder it returns the manifest `null`, `---`, `{}`. -/
theorem generate_uninitialised_succeeds :
    TektonPipeline.Generate yamlMarshal TektonPipeline.zero =
      (some "null\n---\n{}\n", none) := by
  decide

/-- C4 (amended). `Generate` has no precondition check. On a builder that was never
initialised it serializes the null task document and the pipeline mapping without any
field; it returns an error exactly when the serializer fails on one of these two, and
otherwise returns their serializations joined by the separator. -/
theorem generate_uninitialised {ε : Type} (marshal : Marshal ε) :
    taskDocument TektonPipeline.zero.task = YamlNode.null ∧
    TektonPipeline.zero.toYaml = YamlNode.mapping [] ∧
    ((TektonPipeline.Generate marshal TektonPipeline.zero).2 = none ↔
      (marshal YamlNode.null).2 = none ∧ (marshal (YamlNode.mapping [])).2 = none) ∧
    ((marshal YamlNode.null).2 = none → (marshal (YamlNode.mapping [])).2 = none →
      TektonPipeline.Generate marshal TektonPipeline.zero =
        (some ((marshal YamlNode.null).1.getD "" ++ "---\n" ++
          (marshal (YamlNode.mapping [])).1.getD ""), none)) := by
  have h1 : taskDocument TektonPipeline.zero.task = YamlNode.null := rfl
  have h2 : TektonPipeline.zero.toYaml = YamlNode.mapping [] := rfl
  refine ⟨h1, h2, ?_, ?_⟩
  · unfold TektonPipeline.Generate TektonTask.Generate
    rw [h1, h2]
    rcases hn : marshal YamlNode.null with ⟨o1, e1⟩
    rcases hm : marshal (YamlNode.mapping []) with ⟨o2, e2⟩
    cases e1 <;> cases e2 <;> simp
  · intro hn hm
    unfold TektonPipeline.Generate TektonTask.Generate
    rw [h1, h2]
    rcases hn1 : marshal YamlNode.null with ⟨o1, e1⟩
    rcases hm1 : marshal (YamlNode.mapping []) with ⟨o2, e2⟩
    rw [hn1] at hn
    rw [hm1] at hm
    simp only at hn hm
    subst hn hm
    simp

/-- C5. `Init` overwrites every field of the builder: from any prior state, also one
produced by an earlier `Init`, the state after `Init` with a configuration is the state
a fresh builder gets, so `Generate` returns the same result, and repeating `Init` and
`Generate` with the same configuration gives the same bytes. -/
theorem init_overwrites {ε : Type} (marshal : Marshal ε) (K : String) (s : TektonPipeline)
    (c1 c2 : PipelineConfig) :
    TektonPipeline.Init K s c2 = TektonPipeline.Init K TektonPipeline.zero c2 ∧
    TektonPipeline.Init K (TektonPipeline.Init K s c1) c2 =
      TektonPipeline.Init K TektonPipeline.zero c2 ∧
    TektonPipeline.Generate marshal (TektonPipeline.Init K (TektonPipeline.Init K s c1) c2) =
      TektonPipeline.Generate marshal (TektonPipeline.Init K TektonPipeline.zero c2) ∧
    TektonPipeline.Generate marshal (TektonPipeline.Init K (TektonPipeline.Init K s c2) c2) =
      TektonPipeline.Generate marshal (TektonPipeline.Init K s c2) :=
  ⟨rfl, rfl, rfl, rfl⟩

/-- C6 (counterexample). Two configurations that differ only in `Image` get the same
step image: whatever the value of the constant `KptImage`, the two steps do not carry
the respective images of their configurations. -/
theorem step_image_ignores_config :
    ¬ ∃ K : String,
      (TektonPipeline.Init K TektonPipeline.zero
          { Dir := "resources", FnPaths := [], Image := "gcr.io/example/fn:v1" }).steps.map
        (fun s => s.Image) = ["gcr.io/example/fn:v1"] ∧
      (TektonPipeline.Init K TektonPipeline.zero
          { Dir := "resources", FnPaths := [], Image := "gcr.io/example/fn:v2" }).steps.map
        (fun s => s.Image) = ["gcr.io/example/fn:v2"] := by
  rintro ⟨K, h1, h2⟩
  simp only [steps_Init, List.map_cons, List.map_nil, List.cons.injEq, and_true] at h1 h2
  rw [h1] at h2
  exact absurd h2 (by decide)

/-- C6 (amended). The image of the single step of the task is the package constant
`KptImage`, the same for every configuration; `config.Image` is not read. -/
theorem step_image_constant (K : String) (s : TektonPipeline) (c : PipelineConfig) :
    (TektonPipeline.Init K s c).steps.map (fun st => st.Image) = [K] := by
  simp [steps_Init]

/-- C9. `Generate` returns an error if and only if serializing the task or the pipeline
fails. A failure of the task serialization is returned as it is, with `out = nil`,
whatever the pipeline serialization would give; otherwise a failure of the pipeline
serialization is returned as it is with `out = nil`; when both succeed the error is
nil. -/
theorem generate_errors {ε : Type} (marshal : Marshal ε) (q : TektonPipeline) :
    ((TektonPipeline.Generate marshal q).2 ≠ none ↔
      (marshal (taskDocument q.task)).2 ≠ none ∨ (marshal q.toYaml).2 ≠ none) ∧
    ((marshal (taskDocument q.task)).2 ≠ none →
      TektonPipeline.Generate marshal q = (none, (marshal (taskDocument q.task)).2)) ∧
    ((marshal (taskDocument q.task)).2 = none → (marshal q.toYaml).2 ≠ none →
      TektonPipeline.Generate marshal q = (none, (marshal q.toYaml).2)) ∧
    ((marshal (taskDocument q.task)).2 = none → (marshal q.toYaml).2 = none →
      TektonPipeline.Generate marshal q =
        (some ((marshal (taskDocument q.task)).1.getD "" ++ "---\n" ++
          (marshal q.toYaml).1.getD ""), none)) := by
  unfold TektonPipeline.Generate TektonTask.Generate
  rcases marshal (taskDocument q.task) with ⟨o1, e1⟩
  rcases marshal q.toYaml with ⟨o2, e2⟩
  cases e1 <;> cases e2 <;> simp


/-! ## Path arguments -/

theorem directoryArgs_eq (K : String) (s : TektonPipeline) (c : PipelineConfig) :
    directoryArgs K s c = [some (Join [workspaceRoot, c.Dir])] := by
  simp [directoryArgs, steps_Init, stepArgs_eq]

/-- C7. With `Dir = ""` the directory argument is exactly the placeholder
`$(workspaces.source.path)`; for every `Dir` and every number `k` of slashes appended
to it (in particular every `k ≥ 1`) the directory argument is the one of `Dir` itself;
and the directory argument never ends with a slash. -/
theorem directory_arg_normalised (K : String) (s : TektonPipeline) :
    (∀ (fnPaths : List String) (image : String),
      directoryArgs K s { Dir := "", FnPaths := fnPaths, Image := image } =
        [some "$(workspaces.source.path)"]) ∧
    (∀ (d : String) (k : Nat) (fnPaths : List String) (image : String),
      directoryArgs K s { Dir := d ++ slashes k, FnPaths := fnPaths, Image := image } =
        directoryArgs K s { Dir := d, FnPaths := fnPaths, Image := image }) ∧
    (∀ c : PipelineConfig, ∃ a, directoryArgs K s c = [some a] ∧
      a.data.getLast? ≠ some '/') := by
  refine ⟨?_, ?_, ?_⟩
  · intro fnPaths image
    rw [directoryArgs_eq]
    have h : Join [workspaceRoot, ""] = "$(workspaces.source.path)" := by decide
    exact congrArg (fun x => [some x]) h
  · intro d k fnPaths image
    rw [directoryArgs_eq, directoryArgs_eq]
    simp only [Join_append_slashes]
  · intro c
    exact ⟨_, directoryArgs_eq K s c, Join_no_trailing_slash c.Dir⟩

/-- C8 (counterexample). With `Dir = ".."` the directory argument is `.`, and the
fn-path argument for `../../etc` is `../etc`: neither starts with the placeholder. -/
theorem placeholder_dropped_by_dotdot :
    directoryArgs "gcr.io/kpt-dev/kpt:latest" TektonPipeline.zero
        { Dir := "..", FnPaths := ["../../etc"], Image := "" } = [some "."] ∧
    ¬ workspaceRoot.data <+: ".".data ∧
    (TektonPipeline.Init "gcr.io/kpt-dev/kpt:latest" TektonPipeline.zero
        { Dir := "..", FnPaths := ["../../etc"], Image := "" }).steps.map (fun st => st.Args) =
      [["fn", "run", ".", "--fn-path", "../etc"]] ∧
    ¬ workspaceRoot.data <+: "../etc".data := by
  decide

/-- C8 (amended). No argument of the step is an absolute path (none starts with a
slash), whatever `Dir` and `FnPaths` are; and the directory argument and every fn-path
argument starts with the placeholder `$(workspaces.source.path)` whenever the entry it
is built from has no `..` element. -/
theorem path_args_relative (K : String) (s : TektonPipeline) (c : PipelineConfig) :
    (∀ st ∈ (TektonPipeline.Init K s c).steps, ∀ a ∈ st.Args, a.data.head? ≠ some '/') ∧
    (¬ HasDotDot c.Dir →
      ∃ a, directoryArgs K s c = [some a] ∧ workspaceRoot.data <+: a.data) ∧
    (∀ st ∈ (TektonPipeline.Init K s c).steps, ∀ i, ∀ h : i < c.FnPaths.length,
      ¬ HasDotDot c.FnPaths[i] →
        ∃ a, st.Args[2 * i + 4]? = some a ∧ workspaceRoot.data <+: a.data) := by
  refine ⟨?_, ?_, ?_⟩
  · intro st hst a ha
    rw [steps_Init, List.mem_singleton] at hst
    subst hst
    simp only [stepArgs_eq, List.mem_append, List.mem_cons, List.mem_flatten, List.mem_map,
      List.mem_singleton, List.not_mem_nil, or_false] at ha
    rcases ha with (rfl | rfl | rfl) | ⟨l, ⟨f, _, rfl⟩, hl⟩
    · decide
    · decide
    · exact Join_not_absolute c.Dir
    · simp only [List.mem_cons, List.mem_singleton, List.not_mem_nil, or_false] at hl
      rcases hl with rfl | rfl
      · decide
      · exact Join_not_absolute f
  · intro h
    exact ⟨_, directoryArgs_eq K s c, Join_keeps_workspaceRoot c.Dir h⟩
  · intro st hst i h hdd
    rw [steps_Init, List.mem_singleton] at hst
    subst hst
    refine ⟨Join [workspaceRoot, c.FnPaths[i]], ?_, Join_keeps_workspaceRoot _ hdd⟩
    have := (pairs_get c.FnPaths i h).2
    rw [List.getElem?_eq_getElem h] at this
    simp only [stepArgs_eq]
    have e : 2 * i + 4 = (2 * i + 1) + 3 := by ring
    rw [e]
    simpa using this


/-- C8 (witness). `Dir = "a/./b//"` has no `..` element and its directory argument
starts with the placeholder. -/
theorem path_args_relative_witness :
    ¬ HasDotDot "a/./b//" ∧
    ∃ a, directoryArgs "gcr.io/kpt-dev/kpt:latest" TektonPipeline.zero
        { Dir := "a/./b//", FnPaths := ["/etc"], Image := "" } = [some a] ∧
      workspaceRoot.data <+: a.data :=
  ⟨by decide,
    (path_args_relative "gcr.io/kpt-dev/kpt:latest" TektonPipeline.zero
      { Dir := "a/./b//", FnPaths := ["/etc"], Image := "" }).2.1 (by decide)⟩

/-! ## Omitted fields -/

theorem hasKeySeq_scalars (k : String) (l : List String) :
    hasKeySeq k (l.map YamlNode.scalar) = false := by
  induction l with
  | nil => rfl
  | cons a l ih => simp [hasKeySeq, YamlNode.hasKey, ih]

theorem mem_omitEmptyString (k key value : String) (x : YamlNode) :
    (k, x) ∈ omitEmptyString key value ↔
      value ≠ "" ∧ k = key ∧ x = YamlNode.scalar value := by
  unfold omitEmptyString
  split_ifs with h <;> simp [h]

theorem mem_omitEmptyPtr {α : Type} (k key : String) (encode : α → YamlNode)
    (value : Option α) (x : YamlNode) :
    (k, x) ∈ omitEmptyPtr key encode value ↔
      ∃ v, value = some v ∧ k = key ∧ x = encode v := by
  cases value <;> simp [omitEmptyPtr]

theorem mem_omitEmptySlice {α : Type} (k key : String) (encode : α → YamlNode)
    (value : List α) (x : YamlNode) :
    (k, x) ∈ omitEmptySlice key encode value ↔
      value ≠ [] ∧ k = key ∧ x = YamlNode.sequence (value.map encode) := by
  unfold omitEmptySlice
  split_ifs with h
  · simp [List.length_eq_zero.mp h]
  · have : value ≠ [] := fun h0 => h (by simp [h0])
    simp [this]

/-- C10. Omitted-field rule, on the document trees handed to the text encoder. In every
struct of `tekton.go` a field at its zero value (empty string, nil pointer, empty
slice) is not a key of the struct's mapping. In particular, for every configuration,
neither document has a `runAfter` key anywhere, the pipeline-level workspace entry has
the single key `name`, the task's workspace entry has the keys `name` and `mountPath`
(no `workspace`), and the workspace binding of the pipeline task has the keys `name`
and `workspace` (no `mountPath`). -/
theorem omitted_fields (K : String) (s : TektonPipeline) (c : PipelineConfig) :
    ((taskDocument (TektonPipeline.Init K s c).task).hasKey "runAfter" = false ∧
      (TektonPipeline.Init K s c).toYaml.hasKey "runAfter" = false ∧
      (TektonPipeline.Init K s c).workspaces.map (fun w => w.toYaml.keys) = [["name"]] ∧
      (TektonPipeline.Init K s c).taskWorkspaces.map (fun w => w.toYaml.keys) =
        [["name", "mountPath"]] ∧
      (TektonPipeline.Init K s c).tasks.map
          (fun t => t.Workspaces.map (fun w => w.toYaml.keys)) =
        [[["name", "workspace"]]]) ∧
    (∀ p : TektonPipeline,
      (p.APIVersion = "" → "apiVersion" ∉ p.toYaml.keys) ∧
      (p.Kind = "" → "kind" ∉ p.toYaml.keys) ∧
      (p.Metadata = none → "metadata" ∉ p.toYaml.keys) ∧
      (p.Spec = none → "spec" ∉ p.toYaml.keys)) ∧
    (∀ ps : TektonPipelineSpec,
      (ps.Workspaces = [] → "workspaces" ∉ ps.toYaml.keys) ∧
      (ps.Tasks = [] → "tasks" ∉ ps.toYaml.keys)) ∧
    (∀ pt : TektonPipelineTask,
      (pt.Name = "" → "name" ∉ pt.toYaml.keys) ∧
      (pt.TaskRef = none → "taskRef" ∉ pt.toYaml.keys) ∧
      (pt.RunAfter = [] → "runAfter" ∉ pt.toYaml.keys) ∧
      (pt.Workspaces = [] → "workspaces" ∉ pt.toYaml.keys)) ∧
    (∀ r : TektonPipelineTaskRef,
      (r.Name = "" → "name" ∉ r.toYaml.keys)) ∧
    (∀ m : TektonMetadata,
      (m.Name = "" → "name" ∉ m.toYaml.keys)) ∧
    (∀ w : TektonWorkspace,
      (w.Name = "" → "name" ∉ w.toYaml.keys) ∧
      (w.MountPath = "" → "mountPath" ∉ w.toYaml.keys) ∧
      (w.Workspace = "" → "workspace" ∉ w.toYaml.keys)) ∧
    (∀ t : TektonTask,
      (t.APIVersion = "" → "apiVersion" ∉ t.toYaml.keys) ∧
      (t.Kind = "" → "kind" ∉ t.toYaml.keys) ∧
      (t.Metadata = none → "metadata" ∉ t.toYaml.keys) ∧
      (t.Spec = none → "spec" ∉ t.toYaml.keys)) ∧
    (∀ ts : TektonTaskSpec,
      (ts.Workspaces = [] → "workspaces" ∉ ts.toYaml.keys) ∧
      (ts.Steps = [] → "steps" ∉ ts.toYaml.keys) ∧
      (ts.Volumes = [] → "volumes" ∉ ts.toYaml.keys)) ∧
    (∀ st : TektonTaskStep,
      (st.Name = "" → "name" ∉ st.toYaml.keys) ∧
      (st.Image = "" → "image" ∉ st.toYaml.keys) ∧
      (st.Args = [] → "args" ∉ st.toYaml.keys) ∧
      (st.VolumeMounts = [] → "volumeMounts" ∉ st.toYaml.keys)) ∧
    (∀ vm : TektonVolumeMount,
      (vm.Name = "" → "name" ∉ vm.toYaml.keys) ∧
      (vm.MountPath = "" → "mountPath" ∉ vm.toYaml.keys)) ∧
    (∀ v : TektonVolume,
      (v.Name = "" → "name" ∉ v.toYaml.keys) ∧
      (v.HostPath = none → "hostPath" ∉ v.toYaml.keys)) ∧
    (∀ hp : TektonVolumeHostPath,
      (hp.Path = "" → "path" ∉ hp.toYaml.keys) ∧
      (hp.Type_ = "" → "type" ∉ hp.toYaml.keys)) := by
  refine ⟨⟨?_, rfl, rfl, rfl, rfl⟩, ?_, ?_, ?_, ?_, ?_, ?_, ?_, ?_, ?_, ?_, ?_, ?_⟩
  · simp [TektonPipeline.Init, TektonTask.Init, taskDocument, TektonTask.toYaml,
      TektonTaskSpec.toYaml, TektonMetadata.toYaml, TektonWorkspace.toYaml,
      TektonTaskStep.toYaml, TektonVolume.toYaml, TektonVolumeMount.toYaml,
      TektonVolumeHostPath.toYaml, omitEmptyString, omitEmptyPtr, omitEmptySlice,
      YamlNode.hasKey, hasKeySeq, hasKeyMap, hasKeySeq_scalars]
    split_ifs <;> simp [hasKeyMap, YamlNode.hasKey, hasKeySeq, hasKeySeq_scalars]
  · intro p
    refine ⟨?_, ?_, ?_, ?_⟩ <;> intro h <;>
      simp [TektonPipeline.toYaml, YamlNode.keys, mem_omitEmptyString, mem_omitEmptyPtr,
        mem_omitEmptySlice, h]
  · intro ps
    refine ⟨?_, ?_⟩ <;> intro h <;>
      simp [TektonPipelineSpec.toYaml, YamlNode.keys, mem_omitEmptyString, mem_omitEmptyPtr,
        mem_omitEmptySlice, h]
  · intro pt
    refine ⟨?_, ?_, ?_, ?_⟩ <;> intro h <;>
      simp [TektonPipelineTask.toYaml, YamlNode.keys, mem_omitEmptyString, mem_omitEmptyPtr,
        mem_omitEmptySlice, h]
  · intro r h
    simp [TektonPipelineTaskRef.toYaml, YamlNode.keys, mem_omitEmptyString, mem_omitEmptyPtr,
        mem_omitEmptySlice, h]
  · intro m h
    simp [TektonMetadata.toYaml, YamlNode.keys, mem_omitEmptyString, mem_omitEmptyPtr,
        mem_omitEmptySlice, h]
  · intro w
    refine ⟨?_, ?_, ?_⟩ <;> intro h <;>
      simp [TektonWorkspace.toYaml, YamlNode.keys, mem_omitEmptyString, mem_omitEmptyPtr,
        mem_omitEmptySlice, h]
  · intro t
    refine ⟨?_, ?_, ?_, ?_⟩ <;> intro h <;>
      simp [TektonTask.toYaml, YamlNode.keys, mem_omitEmptyString, mem_omitEmptyPtr,
        mem_omitEmptySlice, h]
  · intro ts
    refine ⟨?_, ?_, ?_⟩ <;> intro h <;>
      simp [TektonTaskSpec.toYaml, YamlNode.keys, mem_omitEmptyString, mem_omitEmptyPtr,
        mem_omitEmptySlice, h]
  · intro st
    refine ⟨?_, ?_, ?_, ?_⟩ <;> intro h <;>
      simp [TektonTaskStep.toYaml, YamlNode.keys, mem_omitEmptyString, mem_omitEmptyPtr,
        mem_omitEmptySlice, h]
  · intro vm
    refine ⟨?_, ?_⟩ <;> intro h <;>
      simp [TektonVolumeMount.toYaml, YamlNode.keys, mem_omitEmptyString, mem_omitEmptyPtr,
        mem_omitEmptySlice, h]
  · intro v
    refine ⟨?_, ?_⟩ <;> intro h <;>
      simp [TektonVolume.toYaml, YamlNode.keys, mem_omitEmptyString, mem_omitEmptyPtr,
        mem_omitEmptySlice, h]
  · intro hp
    refine ⟨?_, ?_⟩ <;> intro h <;>
      simp [TektonVolumeHostPath.toYaml, YamlNode.keys, mem_omitEmptyString, mem_omitEmptyPtr,
        mem_omitEmptySlice, h]

/-! ## Printer selection -/

/-- C11. Renderer selection falls back instead of failing: every printer-type token
other than `table` and `json`, the empty string included, gives the events printer,
which is also what the token returned by `DefaultPrinter()` gives; `table` gives the
table printer and `json` the JSON list printer; and `DefaultPrinter()` is a member of
`SupportedPrinters()`. -/
theorem get_printer_falls_back {σ : Type} (printerType : String) (ioStreams : σ) :
    (printerType ≠ "table" → printerType ≠ "json" →
      GetPrinter printerType ioStreams = Printer.events ioStreams ∧
      GetPrinter printerType ioStreams = GetPrinter DefaultPrinter ioStreams) ∧
    GetPrinter "" ioStreams = Printer.events ioStreams ∧
    GetPrinter DefaultPrinter ioStreams = Printer.events ioStreams ∧
    GetPrinter "table" ioStreams = Printer.table ioStreams ∧
    GetPrinter "json" ioStreams = Printer.jsonList ioStreams ∧
    DefaultPrinter = "events" ∧
    DefaultPrinter ∈ SupportedPrinters := by
  refine ⟨?_, rfl, rfl, rfl, rfl, rfl, by decide⟩
  intro h1 h2
  have h : GetPrinter printerType ioStreams = Printer.events ioStreams := by
    unfold GetPrinter
    rw [if_neg (by simpa [TablePrinter] using h1), if_neg (by simpa [JSONPrinter] using h2)]
  exact ⟨h, h.trans rfl⟩

/-- C11 (witness). The unknown token `yaml` gives the events printer. -/
theorem get_printer_falls_back_witness :
    GetPrinter "yaml" () = Printer.events () ∧
    GetPrinter "yaml" () = GetPrinter DefaultPrinter () :=
  (get_printer_falls_back "yaml" ()).1 (by decide) (by decide)

/-! ## The tree built by `Init` -/

theorem tasks_Init (K : String) (s : TektonPipeline) (c : PipelineConfig) :
    (TektonPipeline.Init K s c).tasks =
      [{ Name := "kpt", TaskRef := some { Name := "run-kpt-functions" }, RunAfter := [],
         Workspaces := [{ Name := "source", MountPath := "", Workspace := "shared-workspace" }] }] :=
  rfl

theorem workspaces_Init (K : String) (s : TektonPipeline) (c : PipelineConfig) :
    (TektonPipeline.Init K s c).workspaces =
      [{ Name := "shared-workspace", MountPath := "", Workspace := "" }] :=
  rfl

theorem taskWorkspaces_Init (K : String) (s : TektonPipeline) (c : PipelineConfig) :
    (TektonPipeline.Init K s c).taskWorkspaces =
      [{ Name := "source", MountPath := "/source", Workspace := "" }] :=
  rfl

theorem taskVolumes_Init (K : String) (s : TektonPipeline) (c : PipelineConfig) :
    (TektonPipeline.Init K s c).taskVolumes =
      [{ Name := "docker-socket",
         HostPath := some { Path := "/var/run/docker.sock", Type_ := "Socket" } }] :=
  rfl

/-- C12. Reference threading. The tree built by `TektonPipeline.Init` has exactly one
pipeline task; the name of its `taskRef` is the metadata name of the retained task,
the constant `run-kpt-functions` whatever the configuration; and the entry has exactly
one workspace binding, whose referenced workspace is the single workspace declared at
pipeline level, `shared-workspace`. -/
theorem reference_threading (K : String) (s : TektonPipeline) (c : PipelineConfig) :
    ∃ pt binding ws task,
      (TektonPipeline.Init K s c).tasks = [pt] ∧
      (TektonPipeline.Init K s c).task = some task ∧
      pt.TaskRef.map (fun r => r.Name) = task.Metadata.map (fun m => m.Name) ∧
      pt.TaskRef.map (fun r => r.Name) = some "run-kpt-functions" ∧
      pt.Workspaces = [binding] ∧
      (TektonPipeline.Init K s c).workspaces = [ws] ∧
      binding.Workspace = ws.Name ∧
      ws.Name = "shared-workspace" :=
  ⟨_, _, _, _, tasks_Init K s c, rfl, rfl, rfl, rfl, workspaces_Init K s c, rfl, rfl⟩

/-- C13. No workspace node of the tree built by `Init` has both a mount path and a
workspace reference: the workspace owned by the task has the mount path `/source` and
no reference, the binding of the pipeline task has a reference and no mount path, and
the declaration at pipeline level has a name only. -/
theorem workspace_mount_or_reference (K : String) (s : TektonPipeline) (c : PipelineConfig) :
    (∀ w, (w ∈ (TektonPipeline.Init K s c).workspaces ∨
          w ∈ (TektonPipeline.Init K s c).taskWorkspaces ∨
          ∃ pt ∈ (TektonPipeline.Init K s c).tasks, w ∈ pt.Workspaces) →
        ¬ (w.MountPath ≠ "" ∧ w.Workspace ≠ "")) ∧
    (∀ w ∈ (TektonPipeline.Init K s c).taskWorkspaces,
        w.MountPath = "/source" ∧ w.Workspace = "") ∧
    (∀ pt ∈ (TektonPipeline.Init K s c).tasks, ∀ w ∈ pt.Workspaces,
        w.Workspace = "shared-workspace" ∧ w.MountPath = "") ∧
    (∀ w ∈ (TektonPipeline.Init K s c).workspaces,
        w.Name = "shared-workspace" ∧ w.MountPath = "" ∧ w.Workspace = "") ∧
    (TektonPipeline.Init K s c).workspaces.length = 1 ∧
    (TektonPipeline.Init K s c).taskWorkspaces.length = 1 ∧
    (TektonPipeline.Init K s c).tasks.map (fun pt => pt.Workspaces.length) = [1] := by
  simp only [tasks_Init, workspaces_Init, taskWorkspaces_Init]
  refine ⟨?_, ?_, ?_, ?_, rfl, rfl, rfl⟩
  · rintro w (hw | hw | ⟨pt, hpt, hw⟩)
    · rw [List.mem_singleton] at hw; subst hw; simp
    · rw [List.mem_singleton] at hw; subst hw; simp
    · rw [List.mem_singleton] at hpt; subst hpt
      rw [List.mem_singleton] at hw; subst hw; simp
  · intro w hw
    rw [List.mem_singleton] at hw; subst hw; exact ⟨rfl, rfl⟩
  · intro pt hpt w hw
    rw [List.mem_singleton] at hpt; subst hpt
    rw [List.mem_singleton] at hw; subst hw; exact ⟨rfl, rfl⟩
  · intro w hw
    rw [List.mem_singleton] at hw; subst hw; exact ⟨rfl, rfl, rfl⟩


/-! ## The pipeline document -/

/-- The document tree of the pipeline built by `Init`: the same for every prior state,
image constant and configuration. -/
theorem toYaml_Init (K : String) (s : TektonPipeline) (c : PipelineConfig) :
    (TektonPipeline.Init K s c).toYaml =
      (TektonPipeline.Init "" TektonPipeline.zero
        { Dir := "", FnPaths := [], Image := "" }).toYaml :=
  rfl

theorem afterSeparator_joined (t p : String) (ht : IsDocument t)
    (hp : p.data.getLast? = some '\n') :
    afterSeparator (t ++ "---\n" ++ p) = textLines p := by
  unfold afterSeparator
  rw [textLines_joined t p ht.1 hp, List.append_assoc,
    List.dropWhile_append_of_pos (by
      intro l hl
      simp only [decide_eq_true_eq]
      rintro rfl
      exact ht.2 hl)]
  simp [List.dropWhile_cons]

/-- The step arguments, and so the task document, do vary with the configuration. -/
theorem taskDocument_varies (K : String) (s : TektonPipeline) :
    taskDocument (TektonPipeline.Init K s { Dir := "a", FnPaths := [], Image := "" }).task ≠
      taskDocument (TektonPipeline.Init K s { Dir := "b", FnPaths := [], Image := "" }).task := by
  have hj : Join [workspaceRoot, "a"] ≠ Join [workspaceRoot, "b"] := by decide
  intro h
  apply hj
  by_cases hK : K = "" <;>
    simpa [taskDocument, TektonPipeline.Init, TektonTask.Init, TektonTask.toYaml,
      TektonTaskSpec.toYaml, TektonTaskStep.toYaml, TektonMetadata.toYaml,
      TektonWorkspace.toYaml, TektonVolume.toYaml, TektonVolumeMount.toYaml,
      TektonVolumeHostPath.toYaml, omitEmptyString, omitEmptyPtr, omitEmptySlice,
      stepArgs, hK] using h

/-- C14. The task is a sibling document, not a part of the pipeline document. For every
two configurations (and prior builder states) the pipeline document tree is the same,
so its serialization is the same, and the part of the output of `Generate` after the
separator line is this one serialized pipeline document in both cases; the pipeline
document has none of the keys `steps`, `args`, `image`, `volumeMounts`, `volumes`
of the task. Only the task document varies with the configuration. -/
theorem pipeline_document_independent {ε : Type} (marshal : Marshal ε) (K : String)
    (s1 s2 : TektonPipeline) (c1 c2 : PipelineConfig) (t1 t2 p : String)
    (ht1 : marshal (taskDocument (TektonPipeline.Init K s1 c1).task) = (some t1, none))
    (ht2 : marshal (taskDocument (TektonPipeline.Init K s2 c2).task) = (some t2, none))
    (hp : marshal (TektonPipeline.Init K s1 c1).toYaml = (some p, none))
    (hd1 : IsDocument t1) (hd2 : IsDocument t2) (hdp : IsDocument p) :
    (TektonPipeline.Init K s1 c1).toYaml = (TektonPipeline.Init K s2 c2).toYaml ∧
    marshal (TektonPipeline.Init K s2 c2).toYaml = (some p, none) ∧
    TektonPipeline.Generate marshal (TektonPipeline.Init K s1 c1) =
      (some (t1 ++ "---\n" ++ p), none) ∧
    TektonPipeline.Generate marshal (TektonPipeline.Init K s2 c2) =
      (some (t2 ++ "---\n" ++ p), none) ∧
    afterSeparator (t1 ++ "---\n" ++ p) = textLines p ∧
    afterSeparator (t2 ++ "---\n" ++ p) = textLines p ∧
    (∀ k ∈ ["steps", "args", "image", "volumeMounts", "volumes", "hostPath"],
      (TektonPipeline.Init K s1 c1).toYaml.hasKey k = false) ∧
    (∃ ca cb, taskDocument (TektonPipeline.Init K s1 ca).task ≠
      taskDocument (TektonPipeline.Init K s1 cb).task) := by
  have hy : (TektonPipeline.Init K s1 c1).toYaml = (TektonPipeline.Init K s2 c2).toYaml :=
    (toYaml_Init K s1 c1).trans (toYaml_Init K s2 c2).symm
  have hp2 : marshal (TektonPipeline.Init K s2 c2).toYaml = (some p, none) := by
    rw [← hy]; exact hp
  refine ⟨hy, hp2, Generate_ok marshal _ t1 p ht1 hp, Generate_ok marshal _ t2 p ht2 hp2,
    afterSeparator_joined t1 p hd1 hdp.1, afterSeparator_joined t2 p hd2 hdp.1, ?_,
    ⟨_, _, taskDocument_varies K s1⟩⟩
  rw [toYaml_Init]
  decide

/-- C14 (witness). The reference encoder on the configurations `Dir = "resources"` and
`Dir = ".."`, `FnPaths = ["functions"]`: the part after the separator is the same
pipeline document. -/
theorem pipeline_document_independent_witness :
    afterSeparator ((TektonPipeline.Generate yamlMarshal
        (TektonPipeline.Init "gcr.io/example/fn:v1" TektonPipeline.zero
          { Dir := "resources", FnPaths := [], Image := "gcr.io/example/fn:v1" })).1.getD "") =
      textLines examplePipelineText ∧
    afterSeparator ((TektonPipeline.Generate yamlMarshal
        (TektonPipeline.Init "gcr.io/example/fn:v1" TektonPipeline.zero
          { Dir := "..", FnPaths := ["functions"], Image := "other" })).1.getD "") =
      textLines examplePipelineText := by
  have h := pipeline_document_independent yamlMarshal "gcr.io/example/fn:v1"
    TektonPipeline.zero TektonPipeline.zero
    { Dir := "resources", FnPaths := [], Image := "gcr.io/example/fn:v1" }
    { Dir := "..", FnPaths := ["functions"], Image := "other" }
    exampleTaskText
    ((yamlMarshal (taskDocument (TektonPipeline.Init "gcr.io/example/fn:v1"
      TektonPipeline.zero { Dir := "..", FnPaths := ["functions"], Image := "other" }).task)).1.getD "")
    examplePipelineText (by decide) (by decide) (by decide) (by decide) (by decide)
    (by decide)
  obtain ⟨_, _, h1, h2, h3, h4, _, _⟩ := h
  rw [h1, h2]
  exact ⟨h3, h4⟩

/-! ## Names that must agree -/

theorem workspacePathVariable_injective (n : String)
    (h : workspaceRoot = workspacePathVariable n) : n = "source" := by
  have hd : workspaceRoot.data =
      "$(workspaces.".data ++ ("source".data ++ ".path)".data) := by decide
  have hn : (workspacePathVariable n).data =
      "$(workspaces.".data ++ (n.data ++ ".path)".data) := by
    simp [workspacePathVariable, String.data_append]
  have h2 := congrArg String.data h
  rw [hd, hn] at h2
  have h3 := List.append_cancel_right (List.append_cancel_left h2)
  exact (String.ext h3).symm

/-- C15. Workspace naming is consistent. The placeholder used in the step arguments is
the path variable of the workspace `source` (and of no other workspace), the single
workspace declared by the task is called `source`, and the single workspace binding of
the pipeline task is called `source`. -/
theorem workspace_names_agree (K : String) (s : TektonPipeline) (c : PipelineConfig) :
    workspaceRoot = workspacePathVariable "source" ∧
    (∀ n, workspaceRoot = workspacePathVariable n → n = "source") ∧
    (∃ st, (TektonPipeline.Init K s c).steps = [st] ∧
      st.Args = ["fn", "run", Join [workspacePathVariable "source", c.Dir]] ++
        (c.FnPaths.map (fun f => ["--fn-path", Join [workspacePathVariable "source", f]])).flatten) ∧
    (TektonPipeline.Init K s c).taskWorkspaces.map (fun w => w.Name) = ["source"] ∧
    (TektonPipeline.Init K s c).tasks.map (fun pt => pt.Workspaces.map (fun w => w.Name)) =
      [["source"]] := by
  have hw : workspaceRoot = workspacePathVariable "source" := by decide
  refine ⟨hw, workspacePathVariable_injective, ⟨_, steps_Init K s c, ?_⟩, rfl, rfl⟩
  rw [← hw]
  exact stepArgs_eq c

/-- C16. Volume references inside the task resolve. The task built by `Init` has
exactly one step and exactly one volume; every volume mount of the step names a volume
declared by the task, `docker-socket`, and its mount path is the host path of that
volume, `/var/run/docker.sock` of type `Socket`; the name of the step is the metadata
name of the task. -/
theorem volume_references_resolve (K : String) (s : TektonPipeline) (c : PipelineConfig) :
    ∃ st vol task,
      (TektonPipeline.Init K s c).steps = [st] ∧
      (TektonPipeline.Init K s c).taskVolumes = [vol] ∧
      (TektonPipeline.Init K s c).task = some task ∧
      st.VolumeMounts ≠ [] ∧
      (∀ m ∈ st.VolumeMounts,
        ∃ v ∈ (TektonPipeline.Init K s c).taskVolumes,
          v.Name = m.Name ∧ m.Name = "docker-socket" ∧
          v.HostPath = some { Path := m.MountPath, Type_ := "Socket" } ∧
          m.MountPath = "/var/run/docker.sock") ∧
      task.Metadata.map (fun m => m.Name) = some st.Name := by
  refine ⟨_, _, _, steps_Init K s c, taskVolumes_Init K s c, rfl, by simp, ?_, rfl⟩
  intro m hm
  rw [List.mem_singleton] at hm
  subst hm
  exact ⟨_, by rw [taskVolumes_Init]; exact List.mem_singleton.mpr rfl, rfl, rfl, rfl, rfl⟩

end Kpt
